import Mathlib

/-!
Verification of the algorithmic core of the MR_Spectroscopy_Animation
repository: multiplet synthesis, T2 decay, basis normalization,
concentration-weighted recombination, the five-phase animation state
machine, and the FID-truncation animation.  Definitions are shallow
embeddings of the Python sources; floats are modelled by exact reals
(signal values) and exact rationals (frame/phase bookkeeping).
-/

/-! ### Python numeric helpers -/

/-- Python `int(q)`: truncation toward zero of a rational. -/
def pyInt (q : ℚ) : ℤ := if 0 ≤ q then ⌊q⌋ else -⌊-q⌋

/-- `np.max` of a list of (nonnegative) reals, as a fold from 0; this agrees
with the numpy maximum on the magnitude arrays the scripts take maxima of,
whose entries are all nonnegative. -/
noncomputable def npMax (l : List ℝ) : ℝ := l.foldl max 0

lemma foldl_max_init_le (l : List ℝ) (b : ℝ) : b ≤ l.foldl max b := by
  induction l generalizing b with
  | nil => exact le_rfl
  | cons a l ih =>
      exact le_trans (le_max_left b a) (ih (max b a))

lemma le_foldl_max_of_mem {l : List ℝ} {a : ℝ} (h : a ∈ l) (b : ℝ) :
    a ≤ l.foldl max b := by
  induction l generalizing b with
  | nil => cases h
  | cons x l ih =>
      rcases List.mem_cons.mp h with rfl | h
      · exact le_trans (le_max_right b a) (foldl_max_init_le l (max b a))
      · exact ih h (max b x)

lemma max_div_of_pos {c : ℝ} (hc : 0 < c) (a b : ℝ) :
    max a b / c = max (a / c) (b / c) := by
  rcases le_total a b with h | h
  · rw [max_eq_right h, max_eq_right ((div_le_div_iff_of_pos_right hc).mpr h)]
  · rw [max_eq_left h, max_eq_left ((div_le_div_iff_of_pos_right hc).mpr h)]

lemma foldl_max_map_div {c : ℝ} (hc : 0 < c) (l : List ℝ) :
    ∀ b : ℝ, (l.map (fun x => x / c)).foldl max (b / c) = l.foldl max b / c := by
  induction l with
  | nil => intro b; rfl
  | cons a l ih =>
      intro b
      have : max (b / c) (a / c) = max b a / c := (max_div_of_pos hc b a).symm
      simp only [List.map_cons, List.foldl_cons, this, ih (max b a)]

lemma npMax_nonneg (l : List ℝ) : 0 ≤ npMax l := foldl_max_init_le l 0

lemma le_npMax_of_mem {l : List ℝ} {a : ℝ} (h : a ∈ l) : a ≤ npMax l :=
  le_foldl_max_of_mem h 0

/-- Normalizing a list of nonnegative values by its own `npMax` yields a list
whose `npMax` is exactly 1, provided some entry is nonzero. -/
lemma npMax_normalize {l : List ℝ} (h0 : ∀ x ∈ l, 0 ≤ x)
    (hx : ∃ x ∈ l, x ≠ 0) : npMax (l.map (fun x => x / npMax l)) = 1 := by
  obtain ⟨x0, hmem, hne⟩ := hx
  have hx0 : 0 < x0 := lt_of_le_of_ne (h0 x0 hmem) (Ne.symm hne)
  have hM : 0 < npMax l := lt_of_lt_of_le hx0 (le_npMax_of_mem hmem)
  have h := foldl_max_map_div hM l 0
  rw [zero_div] at h
  unfold npMax at h ⊢
  rw [h]
  exact div_self (ne_of_gt hM)

/-! ### Shared acquisition constants and the multiplet synthesizer

All scripts use `BW = 2000`, `N = 2048`, `t = np.arange(N)/BW`. -/

/-- Sample count `N = 2048`. -/
def nSamples : ℕ := 2048

/-- The shared time axis `t[n] = n / BW` with `BW = 2000`. -/
noncomputable def tAxis (n : ℕ) : ℝ := (n : ℝ) / 2000

/-- One oscillatory term `a * exp(1j*2*pi*f*t)`. -/
noncomputable def oscTerm (f a time : ℝ) : ℂ :=
  (a : ℂ) * Complex.exp (Complex.I * (2 * (Real.pi : ℂ) * (f : ℂ)) * (time : ℂ))

/-- Peak frequency of peak `i` of an `m`-line pattern centred at `center`
with coupling `J`: `center + (i - (m-1)/2) * J`
(line `f = center + offset` of `multiplet`). -/
noncomputable def peakFreq (center : ℝ) (m : ℕ) (J : ℝ) (i : ℕ) : ℝ :=
  center + ((i : ℝ) - ((m : ℝ) - 1) / 2) * J

/-- The accumulation loop `for i,a in enumerate(pattern): sig += ...` of the
pattern-based `multiplet`, with explicit running index. -/
noncomputable def oscLoop (center : ℝ) (m : ℕ) (J : ℝ) (time : ℝ) :
    ℕ → List ℝ → ℂ
  | _, [] => 0
  | i, a :: rest =>
      oscTerm (peakFreq center m J i) a time + oscLoop center m J time (i + 1) rest

/-- The undamped oscillatory superposition `sig` built by the loop of
`multiplet(center, pattern, J)` in the two basis-fitting scripts. -/
noncomputable def multipletOsc (center : ℝ) (pattern : List ℝ) (J : ℝ)
    (time : ℝ) : ℂ :=
  oscLoop center pattern.length J time 0 pattern

/-- The exponential relaxation envelope `decay = np.exp(-t/T2)`. -/
noncomputable def decayEnv (T2 : ℝ) (n : ℕ) : ℝ := Real.exp (-(tAxis n) / T2)

/-- `multiplet(center, pattern, J)` of `Basis_fitting_time_domain.py` and
`Basis_set_fiiting_Spectral_domain.py`: the oscillatory superposition
multiplied by the script's decay envelope (`return sig*decay`), sampled at
index `n` of the time axis. -/
noncomputable def multiplet (T2 center : ℝ) (pattern : List ℝ) (J : ℝ)
    (n : ℕ) : ℂ :=
  multipletOsc center pattern J (tAxis n) * ((decayEnv T2 n : ℝ) : ℂ)

/-- The zip loop of `multiplet(freqs, amps)` in
`MRS_Animation_FID-to-Spectrum.py` and `MRS_Concentration_Time_Domian.py`. -/
noncomputable def oscPairs (time : ℝ) : List (ℝ × ℝ) → ℂ
  | [] => 0
  | fa :: rest => oscTerm fa.1 fa.2 time + oscPairs time rest

/-- `multiplet(freqs, amps)` of the FID-to-spectrum scripts: plain undamped
superposition over `zip(freqs, amps)`; no decay is applied inside. -/
noncomputable def multipletFS (freqs amps : List ℝ) (time : ℝ) : ℂ :=
  oscPairs time (freqs.zip amps)

/-- Closed form of the pattern-based synthesis loop: the sum over peaks `i`
of `amplitude_i * exp(1j*2*pi*f_i*t)` with `f_i = center + (i-(m-1)/2)*J`. -/
noncomputable def oscSumClosed (center : ℝ) (pattern : List ℝ) (J : ℝ)
    (time : ℝ) : ℂ :=
  ∑ i ∈ Finset.range pattern.length,
    oscTerm (peakFreq center pattern.length J i) (pattern.getD i 0) time

lemma oscLoop_eq_sum (center : ℝ) (m : ℕ) (J : ℝ) (time : ℝ)
    (l : List ℝ) : ∀ i : ℕ, oscLoop center m J time i l =
      ∑ j ∈ Finset.range l.length,
        oscTerm (peakFreq center m J (i + j)) (l.getD j 0) time := by
  induction l with
  | nil => intro i; simp [oscLoop]
  | cons a rest ih =>
      intro i
      rw [oscLoop, ih (i + 1), List.length_cons, Finset.sum_range_succ']
      simp only [List.getD_cons_succ, List.getD_cons_zero, Nat.add_zero]
      rw [add_comm]
      congr 1
      refine Finset.sum_congr rfl ?_
      intro j _
      congr 2
      omega

/-- The loop of the pattern-based `multiplet` computes exactly the indexed
sum of oscillatory terms. -/
lemma multipletOsc_eq_closed (center : ℝ) (pattern : List ℝ) (J : ℝ)
    (time : ℝ) :
    multipletOsc center pattern J time = oscSumClosed center pattern J time := by
  unfold multipletOsc oscSumClosed
  rw [oscLoop_eq_sum]
  simp

lemma oscPairs_eq_sum (time : ℝ) (l : List (ℝ × ℝ)) :
    oscPairs time l =
      ∑ j ∈ Finset.range l.length,
        oscTerm (l.getD j (0, 0)).1 (l.getD j (0, 0)).2 time := by
  induction l with
  | nil => simp [oscPairs]
  | cons fa rest ih =>
      rw [oscPairs, ih, List.length_cons, Finset.sum_range_succ']
      simp only [List.getD_cons_succ, List.getD_cons_zero]
      rw [add_comm]

/-! ### Basis normalizer and compositor (time domain,
`Basis_fitting_time_domain.py` lines 60-74) -/

/-- `np.max(np.abs(sig))` over the `Nn` samples of a complex signal. -/
noncomputable def maxAbs (Nn : ℕ) (sig : ℕ → ℂ) : ℝ :=
  npMax ((List.range Nn).map (fun n => Complex.abs (sig n)))

/-- `basis = fid / np.max(np.abs(fid))` (time-domain normalization). -/
noncomputable def basisFid (Nn : ℕ) (sig : ℕ → ℂ) (n : ℕ) : ℂ :=
  sig n / ((maxAbs Nn sig : ℝ) : ℂ)

/-- One entry of the `molecules` dictionary of the time-domain script:
a precomputed FID and a concentration. -/
structure Molecule where
  fid : ℕ → ℂ
  conc : ℝ

/-- `basis_fids[name]`: normalized FID of a molecule. -/
noncomputable def basisOf (Nn : ℕ) (m : Molecule) : ℕ → ℂ := basisFid Nn m.fid

/-- `real_fids[name] = basis * data["conc"]`. -/
noncomputable def realOf (Nn : ℕ) (m : Molecule) (n : ℕ) : ℂ :=
  basisOf Nn m n * (m.conc : ℂ)

/-- `real_sum = sum(real_fids.values())`, the composite signal. -/
noncomputable def realSumTD (Nn : ℕ) (mols : List Molecule) (n : ℕ) : ℂ :=
  (mols.map (fun m => realOf Nn m n)).sum

/-- `fitted = sum(basis_fids[n]*molecules[n]["conc"] for n in molecules)`,
recomputed in the final phase of `update`. -/
noncomputable def fittedTD (Nn : ℕ) (mols : List Molecule) (n : ℕ) : ℂ :=
  (mols.map (fun m => basisOf Nn m n * (m.conc : ℂ))).sum

/-! ### Spectral transformer and frequency-domain pipeline
(`Basis_set_fiiting_Spectral_domain.py` lines 79-94) -/

/-- Discrete Fourier transform `np.fft.fft`:
`X[k] = sum_j x[j] * exp(-2*pi*i*j*k/N)`. -/
noncomputable def dft (Nn : ℕ) (x : ℕ → ℂ) (k : ℕ) : ℂ :=
  ∑ j ∈ Finset.range Nn,
    x j * Complex.exp (-(2 * (Real.pi : ℂ) * Complex.I) * (j : ℂ) * (k : ℂ) / (Nn : ℂ))

/-- Index permutation of `np.fft.fftshift` (a roll by `N - N//2`):
`shifted[k] = arr[(k + N - N//2) % N]`. -/
def shiftIdx (Nn k : ℕ) : ℕ := (k + (Nn - Nn / 2)) % Nn

/-- `spec = np.abs(np.fft.fftshift(np.fft.fft(sig)))`, the magnitude
spectrum on the shifted frequency axis. -/
noncomputable def specOf (Nn : ℕ) (x : ℕ → ℂ) (k : ℕ) : ℝ :=
  Complex.abs (dft Nn x (shiftIdx Nn k))

/-- `spec.max()` over the `Nn` frequency bins. -/
noncomputable def specMax (Nn : ℕ) (x : ℕ → ℂ) : ℝ :=
  npMax ((List.range Nn).map (specOf Nn x))

/-- `basis = spec/spec.max()` (frequency-domain normalization). -/
noncomputable def basisSpecSig (Nn : ℕ) (x : ℕ → ℂ) (k : ℕ) : ℝ :=
  specOf Nn x k / specMax Nn x

/-- One entry of the `molecules` dictionary of the spectral script:
a list of multiplet FIDs (`"peaks"`) and a concentration. -/
structure SpecMolecule where
  peaks : List (ℕ → ℂ)
  conc : ℝ

/-- `mol_sum = sum(data["peaks"])`. -/
noncomputable def molSum (m : SpecMolecule) (n : ℕ) : ℂ :=
  (m.peaks.map (fun p => p n)).sum

/-- `basis_specs[name]`: normalized magnitude spectrum of a molecule. -/
noncomputable def basisSpecOf (Nn : ℕ) (m : SpecMolecule) (k : ℕ) : ℝ :=
  basisSpecSig Nn (molSum m) k

/-- `real_specs[name] = basis * data["conc"]`. -/
noncomputable def realSpecOf (Nn : ℕ) (m : SpecMolecule) (k : ℕ) : ℝ :=
  basisSpecOf Nn m k * m.conc

/-- `real_sum = sum(real_specs.values())` (spectral script). -/
noncomputable def realSumSpec (Nn : ℕ) (mols : List SpecMolecule) (k : ℕ) : ℝ :=
  (mols.map (fun m => realSpecOf Nn m k)).sum

/-- `fitted = sum(basis_specs[n]*molecules[n]["conc"] for n in molecules)`
(final phase of the spectral script's `update`). -/
noncomputable def fittedSpec (Nn : ℕ) (mols : List SpecMolecule) (k : ℕ) : ℝ :=
  (mols.map (fun m => basisSpecOf Nn m k * m.conc)).sum

/-! ### Phase sequencer (`update` of the basis-fitting scripts) -/

/-- The five animation phases. -/
inductive Phase where
  | revealComponents
  | showSum
  | showBasis
  | scaleBasis
  | showFit
deriving DecidableEq

/-- The phase selected by the mutually exclusive `if` conditions of `update`
(`phase < 0.3`, `0.3 <= phase < 0.45`, `0.45 <= phase < 0.65`,
`0.65 <= phase < 0.9`, `phase >= 0.9`), as a function of the progress
fraction `phase = frame/frames`. -/
def phaseOf (p : ℚ) : Phase :=
  if p < 3/10 then .revealComponents
  else if p < 45/100 then .showSum
  else if p < 65/100 then .showBasis
  else if p < 9/10 then .scaleBasis
  else .showFit

/-- `k = int((phase/0.3)*len(molecules))`, the reveal cutoff of phase 1. -/
def kReveal (p : ℚ) (M : ℕ) : ℤ := pyInt ((p / (3/10)) * (M : ℚ))

/-- Number of species `i < M` satisfying the reveal test `i <= k`. -/
def revealCount (p : ℚ) (M : ℕ) : ℕ :=
  ((Finset.range M).filter (fun i : ℕ => (i : ℤ) ≤ kReveal p M)).card

/-- `s = (phase-0.65)/0.25`, the local scale factor of phase 4. -/
def sScale (p : ℚ) : ℚ := (p - 65/100) / (25/100)

/-- Mutable state of the time-domain animation: the signal arrays computed
once at setup (`basis_fids`, `real_fids`, `real_sum`, concentrations) and
the data currently held by the matplotlib line artists (`none` = empty). -/
structure TDState where
  basisArr : List (ℕ → ℂ)
  realArr : List (ℕ → ℂ)
  realSumArr : ℕ → ℂ
  concs : List ℝ
  black : List (Option (ℕ → ℝ))
  red : List (Option (ℕ → ℝ))
  sumBlack : Option (ℕ → ℝ)
  sumRed : Option (ℕ → ℝ)

/-- Block `PHASE 1` of `update`: reveal the real FIDs of the species with
index `i <= k` where `k = int((phase/0.3)*len(molecules))`. -/
noncomputable def phase1TD (phase : ℚ) (s : TDState) : TDState :=
  if phase < 3/10 then
    { s with black := (List.range s.black.length).map (fun i : ℕ =>
        if (i : ℤ) ≤ kReveal phase s.concs.length then
          some (fun n => ((s.realArr.getD i (fun _ => 0)) n).re)
        else s.black.getD i none) }
  else s

/-- Block `PHASE 2` of `update`: show the composite `real_sum` and clear
the per-species traces. -/
noncomputable def phase2TD (phase : ℚ) (s : TDState) : TDState :=
  if 3/10 ≤ phase ∧ phase < 45/100 then
    { s with sumBlack := some (fun n => (s.realSumArr n).re),
             black := s.black.map (fun _ => none) }
  else s

/-- Block `PHASE 3` of `update`: show every basis trace at unit scale. -/
noncomputable def phase3TD (phase : ℚ) (s : TDState) : TDState :=
  if 45/100 ≤ phase ∧ phase < 65/100 then
    { s with red := (List.range s.red.length).map (fun i =>
        some (fun n => ((s.basisArr.getD i (fun _ => 0)) n).re)) }
  else s

/-- Block `PHASE 4` of `update`: show `basis * conc * s` with the local
scale factor `s = (phase-0.65)/0.25`. -/
noncomputable def phase4TD (phase : ℚ) (s : TDState) : TDState :=
  if 65/100 ≤ phase ∧ phase < 9/10 then
    { s with red := (List.range s.red.length).map (fun i =>
        some (fun n => (((s.basisArr.getD i (fun _ => 0)) n) *
          ((s.concs.getD i 0 : ℝ) : ℂ) * ((sScale phase : ℚ) : ℝ)).re)) }
  else s

/-- Block `PHASE 5` of `update`: recompute the fitted signal from the basis
set and the concentrations and show it. -/
noncomputable def phase5TD (phase : ℚ) (s : TDState) : TDState :=
  if 9/10 ≤ phase then
    { s with sumRed := some (fun n =>
        (((List.range s.basisArr.length).map (fun i =>
          (s.basisArr.getD i (fun _ => 0)) n *
            ((s.concs.getD i 0 : ℝ) : ℂ))).sum).re) }
  else s

/-- One call of `update(frame)` of `Basis_fitting_time_domain.py` (lines
93-150): five guarded blocks keyed on `phase = frame/frames`, each reading
the setup-time signal arrays and writing only line-artist data. -/
noncomputable def updateTD (frames frame : ℕ) (s : TDState) : TDState :=
  let phase : ℚ := (frame : ℚ) / (frames : ℚ)
  phase5TD phase (phase4TD phase (phase3TD phase (phase2TD phase
    (phase1TD phase s))))

lemma phase5TD_red (phase : ℚ) (s : TDState) :
    (phase5TD phase s).red = s.red := by
  unfold phase5TD
  split <;> rfl

lemma phase1TD_arrays (phase : ℚ) (s : TDState) :
    (phase1TD phase s).basisArr = s.basisArr ∧
    (phase1TD phase s).realArr = s.realArr ∧
    (phase1TD phase s).realSumArr = s.realSumArr ∧
    (phase1TD phase s).concs = s.concs := by
  unfold phase1TD
  split <;> exact ⟨rfl, rfl, rfl, rfl⟩

lemma phase2TD_arrays (phase : ℚ) (s : TDState) :
    (phase2TD phase s).basisArr = s.basisArr ∧
    (phase2TD phase s).realArr = s.realArr ∧
    (phase2TD phase s).realSumArr = s.realSumArr ∧
    (phase2TD phase s).concs = s.concs := by
  unfold phase2TD
  split <;> exact ⟨rfl, rfl, rfl, rfl⟩

lemma phase3TD_arrays (phase : ℚ) (s : TDState) :
    (phase3TD phase s).basisArr = s.basisArr ∧
    (phase3TD phase s).realArr = s.realArr ∧
    (phase3TD phase s).realSumArr = s.realSumArr ∧
    (phase3TD phase s).concs = s.concs := by
  unfold phase3TD
  split <;> exact ⟨rfl, rfl, rfl, rfl⟩

lemma phase4TD_arrays (phase : ℚ) (s : TDState) :
    (phase4TD phase s).basisArr = s.basisArr ∧
    (phase4TD phase s).realArr = s.realArr ∧
    (phase4TD phase s).realSumArr = s.realSumArr ∧
    (phase4TD phase s).concs = s.concs := by
  unfold phase4TD
  split <;> exact ⟨rfl, rfl, rfl, rfl⟩

lemma phase5TD_arrays (phase : ℚ) (s : TDState) :
    (phase5TD phase s).basisArr = s.basisArr ∧
    (phase5TD phase s).realArr = s.realArr ∧
    (phase5TD phase s).realSumArr = s.realSumArr ∧
    (phase5TD phase s).concs = s.concs := by
  unfold phase5TD
  split <;> exact ⟨rfl, rfl, rfl, rfl⟩

/-! ### RF-pulse Bloch animation (`RF_Pulse_to_FID.py`) -/

/-- Mutable state of the Bloch animation: per-spin magnetization components,
accumulated phases, and the growing `fid` list. -/
structure RFState where
  Mx : List ℝ
  My : List ℝ
  Mz : List ℝ
  phases : List ℝ
  fid : List ℝ

/-- `freq_offsets = np.linspace(-0.1, 0.1, 6)`. -/
noncomputable def freqOffsets : List ℝ :=
  [-(1/10), -(6/100), -(2/100), 2/100, 6/100, 1/10]

/-- One call of `update(frame)` of `RF_Pulse_to_FID.py`: before the RF pulse
the spins are reset along z; at the pulse they are tipped into x; afterwards
each spin accumulates phase and decays; in every branch one sample is
appended to the `fid` list (`fid.append(...)`, lines 119-123). -/
noncomputable def rfStep (offsets : List ℝ) (rfFrame : ℕ) (T2s : ℝ)
    (frame : ℕ) (s : RFState) : RFState :=
  if frame < rfFrame then
    { s with Mx := s.Mx.map (fun _ => 0),
             My := s.My.map (fun _ => 0),
             Mz := s.Mz.map (fun _ => 1),
             fid := s.fid ++ [0] }
  else if frame = rfFrame then
    { s with Mx := s.Mx.map (fun _ => 1),
             My := s.My.map (fun _ => 0),
             Mz := s.Mz.map (fun _ => 0),
             fid := s.fid ++ [0] }
  else
    let phases' := (s.phases.zip offsets).map (fun po => po.1 + 3/10 + po.2)
    let dec := Real.exp (-(((frame : ℝ) - (rfFrame : ℝ))) / T2s)
    let Mx' := phases'.map (fun ph => dec * Real.cos ph)
    let My' := phases'.map (fun ph => dec * Real.sin ph)
    let Mz' := s.Mz.map (fun _ => 0)
    { Mx := Mx', My := My', Mz := Mz', phases := phases',
      fid := s.fid ++ [Mx'.sum] }

/-- Initial Bloch state: `Mx = My = 0`, `Mz = 1` for the 6 spins, an empty
`fid` list, and caller-supplied initial phases (the script draws them from
`np.random.rand`; nothing below depends on their values). -/
noncomputable def rfInit (ph : List ℝ) : RFState :=
  { Mx := List.replicate 6 0, My := List.replicate 6 0,
    Mz := List.replicate 6 1, phases := ph, fid := [] }

/-! ### FID truncation animation (`MRS_Animation_FID-to-Spectrum.py`,
`MRS_Concentration_Time_Domian.py`) and setup-time decay -/

/-- `idx = int((frame/frames)*N)`, the truncation index of `update`. -/
def truncIdx (frame frames Nn : ℕ) : ℤ :=
  pyInt (((frame : ℚ) / (frames : ℚ)) * (Nn : ℚ))

/-- The setup-time computation `decay = np.exp(-t/T2)` of every script,
wrapped as a fallible step: the source performs no validation of `T2`, so
the computation unconditionally succeeds for every value of `T2`. -/
noncomputable def setupDecay (T2 : ℝ) : Except String (ℕ → ℝ) :=
  Except.ok (decayEnv T2)

/-! ### Helper lemmas shared between claims -/

/-- A singlet at centre 0 contributes the constant term 1 (undamped). -/
lemma oscSumClosed_singlet_zero (time : ℝ) :
    oscSumClosed 0 [1] 7 time = 1 := by
  unfold oscSumClosed oscTerm peakFreq
  norm_num [Finset.sum_range_one]

/-- The real exponential of a negative argument, seen in `ℂ`, is not 1. -/
lemma coe_exp_ne_one_of_neg {r : ℝ} (hr : r < 0) :
    ((Real.exp r : ℝ) : ℂ) ≠ 1 := by
  intro h
  have h1 : Real.exp r = 1 := by exact_mod_cast h
  have h2 : Real.exp r < 1 := by
    calc Real.exp r < Real.exp 0 := Real.exp_lt_exp.mpr hr
      _ = 1 := Real.exp_zero
  linarith

/-! ### Claim theorems -/

/-- Claim C1: the fitted signal recomputed in the final phase (sum over
species of basis times concentration) is elementwise equal, as an exact
algebraic identity, to the composite signal computed at setup (sum of the
per-species real signals), for every configuration with at least one
species — in the time-domain script and in the spectral script. -/
theorem claim1_fitted_eq_composite :
    (∀ (Nn : ℕ) (mols : List Molecule), mols ≠ [] →
        ∀ n, fittedTD Nn mols n = realSumTD Nn mols n) ∧
    (∀ (Nn : ℕ) (mols : List SpecMolecule), mols ≠ [] →
        ∀ k, fittedSpec Nn mols k = realSumSpec Nn mols k) := by
  constructor
  · intro Nn mols _ n
    unfold fittedTD realSumTD realOf
    rfl
  · intro Nn mols _ k
    unfold fittedSpec realSumSpec realSpecOf
    rfl

/-- A one-species time-domain configuration (constant unit FID). -/
noncomputable def exMolecule : Molecule := { fid := fun _ => 1, conc := 2 }

/-- A one-species spectral configuration. -/
noncomputable def exSpecMolecule : SpecMolecule :=
  { peaks := [fun _ => 1], conc := 2 }

theorem claim1_witness :
    ([exMolecule] ≠ ([] : List Molecule) ∧
      fittedTD 4 [exMolecule] 0 = realSumTD 4 [exMolecule] 0) ∧
    ([exSpecMolecule] ≠ ([] : List SpecMolecule) ∧
      fittedSpec 4 [exSpecMolecule] 0 = realSumSpec 4 [exSpecMolecule] 0) :=
  ⟨⟨by simp, claim1_fitted_eq_composite.1 4 [exMolecule] (by simp) 0⟩,
   ⟨by simp, claim1_fitted_eq_composite.2 4 [exSpecMolecule] (by simp) 0⟩⟩

/-- Claim C5: the phase of a frame is a pure function of the progress
fraction `p = frame/frames`, partitioning the nonnegative ray into the
half-open intervals `[0,0.30) ↦ REVEAL_COMPONENTS`, `[0.30,0.45) ↦
SHOW_SUM`, `[0.45,0.65) ↦ SHOW_BASIS`, `[0.65,0.90) ↦ SCALE_BASIS`,
`[0.90,∞) ↦ SHOW_FIT`, each boundary belonging to the phase starting
there; concretely for 100 frames, frame 29 reveals, frame 30 shows the
sum, frame 89 scales, frame 90 shows the fit. -/
theorem claim5_phase_partition :
    (∀ p : ℚ, 0 ≤ p →
      ((phaseOf p = Phase.revealComponents ↔ p < 3/10) ∧
       (phaseOf p = Phase.showSum ↔ 3/10 ≤ p ∧ p < 45/100) ∧
       (phaseOf p = Phase.showBasis ↔ 45/100 ≤ p ∧ p < 65/100) ∧
       (phaseOf p = Phase.scaleBasis ↔ 65/100 ≤ p ∧ p < 9/10) ∧
       (phaseOf p = Phase.showFit ↔ 9/10 ≤ p))) ∧
    phaseOf ((29 : ℚ)/100) = Phase.revealComponents ∧
    phaseOf ((30 : ℚ)/100) = Phase.showSum ∧
    phaseOf ((89 : ℚ)/100) = Phase.scaleBasis ∧
    phaseOf ((90 : ℚ)/100) = Phase.showFit := by
  refine ⟨?_, ?_, ?_, ?_, ?_⟩
  · intro p _
    unfold phaseOf
    refine ⟨?_, ?_, ?_, ?_, ?_⟩ <;>
      (split_ifs with h1 h2 h3 h4 <;> simp_all <;>
        first
          | linarith
          | (intros; linarith))
  all_goals (unfold phaseOf; norm_num)

theorem claim5_witness :
    (0 : ℚ) ≤ 1/2 ∧
    (phaseOf ((1 : ℚ)/2) = Phase.showBasis ↔
      45/100 ≤ (1 : ℚ)/2 ∧ (1 : ℚ)/2 < 65/100) :=
  ⟨by norm_num, (claim5_phase_partition.1 (1/2) (by norm_num)).2.2.1⟩

/-- Claim C6: within REVEAL_COMPONENTS the reveal cutoff is
`floor((p/0.30)·M)`, the revealed set `{i | i ≤ k}` only grows with `p`,
and the reveal count is monotonically non-decreasing, for any species
count `M ≥ 1` and `0 ≤ p1 ≤ p2 < 0.30`. -/
theorem claim6_reveal_monotone (M : ℕ) (p1 p2 : ℚ)
    (hM : 1 ≤ M) (h0 : 0 ≤ p1) (h12 : p1 ≤ p2) (h2 : p2 < 3/10) :
    kReveal p1 M = ⌊(p1 / (3/10)) * (M : ℚ)⌋ ∧
    (∀ i : ℕ, (i : ℤ) ≤ kReveal p1 M → (i : ℤ) ≤ kReveal p2 M) ∧
    revealCount p1 M ≤ revealCount p2 M := by
  have hfloor : ∀ p : ℚ, 0 ≤ p → kReveal p M = ⌊(p / (3/10)) * (M : ℚ)⌋ := by
    intro p hp
    unfold kReveal pyInt
    rw [if_pos (by positivity)]
  have hmono : kReveal p1 M ≤ kReveal p2 M := by
    rw [hfloor p1 h0, hfloor p2 (le_trans h0 h12)]
    apply Int.floor_mono
    have : p1 / (3/10) ≤ p2 / (3/10) :=
      (div_le_div_iff_of_pos_right (by norm_num)).mpr h12
    exact mul_le_mul_of_nonneg_right this (by positivity)
  refine ⟨hfloor p1 h0, fun i hi => le_trans hi hmono, ?_⟩
  unfold revealCount
  apply Finset.card_le_card
  intro i hi
  rw [Finset.mem_filter] at hi ⊢
  exact ⟨hi.1, le_trans hi.2 hmono⟩

theorem claim6_witness :
    (1 ≤ 4 ∧ (0 : ℚ) ≤ 1/10 ∧ (1 : ℚ)/10 ≤ 29/100 ∧ (29 : ℚ)/100 < 3/10) ∧
    revealCount (1/10) 4 ≤ revealCount (29/100) 4 :=
  ⟨⟨by norm_num, by norm_num, by norm_num, by norm_num⟩,
   (claim6_reveal_monotone 4 (1/10) (29/100) (by norm_num) (by norm_num)
     (by norm_num) (by norm_num)).2.2⟩

/-- Claim C10: for every generated frame (`frame < frames`) the truncation
index `idx = int((frame/frames)*N)` lies in `[0, N)`, so the slices
`fid[:idx]` are in bounds and the displayed signal is a strict initial
part of the full FID — the complete FID is never reached. -/
theorem claim10_trunc_in_bounds (frame frames Nn : ℕ)
    (hf : 0 < frames) (hlt : frame < frames) (hN : 0 < Nn) :
    0 ≤ truncIdx frame frames Nn ∧ truncIdx frame frames Nn < (Nn : ℤ) ∧
    ∀ l : List ℂ, l.length = Nn →
      (l.take (truncIdx frame frames Nn).toNat).length < l.length ∧
      l.take (truncIdx frame frames Nn).toNat ≠ l := by
  have hq1 : (frame : ℚ) / (frames : ℚ) < 1 := by
    rw [div_lt_one (by exact_mod_cast hf)]
    exact_mod_cast hlt
  have hx0 : (0 : ℚ) ≤ (frame : ℚ) / (frames : ℚ) * (Nn : ℚ) := by positivity
  have hxN : (frame : ℚ) / (frames : ℚ) * (Nn : ℚ) < (Nn : ℚ) := by
    calc (frame : ℚ) / (frames : ℚ) * (Nn : ℚ)
        < 1 * (Nn : ℚ) :=
          mul_lt_mul_of_pos_right hq1 (by exact_mod_cast hN)
      _ = (Nn : ℚ) := one_mul _
  have hpy : truncIdx frame frames Nn =
      ⌊(frame : ℚ) / (frames : ℚ) * (Nn : ℚ)⌋ := by
    unfold truncIdx pyInt
    rw [if_pos hx0]
  have h0 : 0 ≤ truncIdx frame frames Nn := by
    rw [hpy]; exact Int.floor_nonneg.mpr hx0
  have hN' : truncIdx frame frames Nn < (Nn : ℤ) := by
    rw [hpy]
    apply Int.floor_lt.mpr
    push_cast
    exact hxN
  refine ⟨h0, hN', ?_⟩
  intro l hl
  have hlen : (l.take (truncIdx frame frames Nn).toNat).length < l.length := by
    rw [List.length_take, hl]
    omega
  refine ⟨hlen, fun he => ?_⟩
  rw [he] at hlen
  exact lt_irrefl _ hlen

theorem claim10_witness :
    0 ≤ truncIdx 299 300 2048 ∧ truncIdx 299 300 2048 < (2048 : ℤ) ∧
    (([0, 0, 0, 0] : List ℂ).take (truncIdx 2 3 4).toNat).length <
      ([0, 0, 0, 0] : List ℂ).length :=
  ⟨(claim10_trunc_in_bounds 299 300 2048 (by norm_num) (by norm_num)
      (by norm_num)).1,
   (claim10_trunc_in_bounds 299 300 2048 (by norm_num) (by norm_num)
      (by norm_num)).2.1,
   ((claim10_trunc_in_bounds 2 3 4 (by norm_num) (by norm_num)
      (by norm_num)).2.2 [0, 0, 0, 0] (by simp)).1⟩

/-- Claim C2: for every species whose decayed FID (respectively magnitude
spectrum) is not identically zero over the `Nn` samples, the normalized
basis has peak magnitude exactly 1 — for the time-domain normalization
(divide by `max(|fid|)`) and the frequency-domain normalization (divide by
the spectral maximum). -/
theorem claim2_basis_peak_one :
    (∀ (Nn : ℕ) (sig : ℕ → ℂ), (∃ n, n < Nn ∧ sig n ≠ 0) →
        maxAbs Nn (basisFid Nn sig) = 1) ∧
    (∀ (Nn : ℕ) (x : ℕ → ℂ), (∃ k, k < Nn ∧ specOf Nn x k ≠ 0) →
        npMax ((List.range Nn).map (fun k => |basisSpecSig Nn x k|)) = 1) := by
  constructor
  · intro Nn sig hex
    obtain ⟨n0, hn0, hne⟩ := hex
    simp only [maxAbs, basisFid]
    set L := (List.range Nn).map (fun n => Complex.abs (sig n)) with hL
    have habs : ∀ n : ℕ, Complex.abs (sig n / ((npMax L : ℝ) : ℂ)) =
        Complex.abs (sig n) / npMax L := by
      intro n
      rw [map_div₀, Complex.abs_ofReal, abs_of_nonneg (npMax_nonneg _)]
    simp only [habs]
    have hmap : (List.range Nn).map (fun n => Complex.abs (sig n) / npMax L) =
        L.map (fun v => v / npMax L) := by
      rw [hL, List.map_map]
      rfl
    rw [hmap]
    apply npMax_normalize
    · intro v hv
      rw [hL] at hv
      rcases List.mem_map.mp hv with ⟨m, _, rfl⟩
      exact Complex.abs.nonneg _
    · refine ⟨Complex.abs (sig n0), ?_, Complex.abs.ne_zero hne⟩
      rw [hL]
      exact List.mem_map.mpr ⟨n0, List.mem_range.mpr hn0, rfl⟩
  · intro Nn x hex
    obtain ⟨k0, hk0, hne⟩ := hex
    simp only [basisSpecSig, specMax]
    set L := (List.range Nn).map (specOf Nn x) with hL
    have habs : ∀ k : ℕ, |specOf Nn x k / npMax L| =
        specOf Nn x k / npMax L := by
      intro k
      exact abs_of_nonneg
        (div_nonneg (Complex.abs.nonneg _) (npMax_nonneg _))
    simp only [habs]
    have hmap : (List.range Nn).map (fun k => specOf Nn x k / npMax L) =
        L.map (fun v => v / npMax L) := by
      rw [hL, List.map_map]
      rfl
    rw [hmap]
    apply npMax_normalize
    · intro v hv
      rw [hL] at hv
      rcases List.mem_map.mp hv with ⟨m, _, rfl⟩
      exact Complex.abs.nonneg _
    · refine ⟨specOf Nn x k0, ?_, hne⟩
      rw [hL]
      exact List.mem_map.mpr ⟨k0, List.mem_range.mpr hk0, rfl⟩

/-- The all-ones signal, a minimal non-degenerate species FID. -/
noncomputable def constOne : ℕ → ℂ := fun _ => 1

theorem claim2_witness :
    (∃ n, n < 1 ∧ constOne n ≠ 0) ∧ maxAbs 1 (basisFid 1 constOne) = 1 ∧
    (∃ k, k < 1 ∧ specOf 1 constOne k ≠ 0) ∧
    npMax ((List.range 1).map (fun k => |basisSpecSig 1 constOne k|)) = 1 := by
  have h1 : ∃ n, n < 1 ∧ constOne n ≠ 0 :=
    ⟨0, by norm_num, by simp [constOne]⟩
  have h2 : ∃ k, k < 1 ∧ specOf 1 constOne k ≠ 0 := by
    refine ⟨0, by norm_num, ?_⟩
    have : dft 1 constOne (shiftIdx 1 0) = 1 := by
      norm_num [dft, shiftIdx, constOne, Finset.sum_range_one]
    rw [specOf]
    norm_num [shiftIdx] at this ⊢
    rw [this]
    norm_num
  exact ⟨h1, claim2_basis_peak_one.1 1 constOne h1, h2,
    claim2_basis_peak_one.2 1 constOne h2⟩

/-- Claim C7: in SCALE_BASIS (`0.65 ≤ p < 0.90`) the local scale factor is
`s = (p-0.65)/0.25 ∈ [0,1)`, and the frame update sets every species' red
trace to (the displayed real part of) `basis * concentration * s`, the
linear ramp from zero to the fully concentration-scaled basis. -/
theorem claim7_scale_phase (frames frame : ℕ) (st : TDState)
    (h1 : 65/100 ≤ (frame : ℚ) / (frames : ℚ))
    (h2 : (frame : ℚ) / (frames : ℚ) < 9/10) :
    0 ≤ sScale ((frame : ℚ) / (frames : ℚ)) ∧
    sScale ((frame : ℚ) / (frames : ℚ)) < 1 ∧
    sScale ((frame : ℚ) / (frames : ℚ)) =
      ((frame : ℚ) / (frames : ℚ) - 65/100) / (25/100) ∧
    (updateTD frames frame st).red =
      (List.range st.red.length).map (fun i =>
        some (fun n => (((st.basisArr.getD i (fun _ => 0)) n) *
          ((st.concs.getD i 0 : ℝ) : ℂ) *
          ((sScale ((frame : ℚ) / (frames : ℚ)) : ℚ) : ℝ)).re)) := by
  have hs0 : 0 ≤ sScale ((frame : ℚ) / (frames : ℚ)) := by
    unfold sScale
    apply div_nonneg _ (by norm_num)
    linarith
  have hs1 : sScale ((frame : ℚ) / (frames : ℚ)) < 1 := by
    unfold sScale
    rw [div_lt_one (by norm_num)]
    linarith
  refine ⟨hs0, hs1, rfl, ?_⟩
  have c1 : ¬((frame : ℚ) / (frames : ℚ) < 3/10) := by linarith
  have c2 : ¬(3/10 ≤ (frame : ℚ) / (frames : ℚ) ∧
      (frame : ℚ) / (frames : ℚ) < 45/100) := by
    rintro ⟨_, h⟩
    linarith
  have c3 : ¬(45/100 ≤ (frame : ℚ) / (frames : ℚ) ∧
      (frame : ℚ) / (frames : ℚ) < 65/100) := by
    rintro ⟨_, h⟩
    linarith
  have c4 : 65/100 ≤ (frame : ℚ) / (frames : ℚ) ∧
      (frame : ℚ) / (frames : ℚ) < 9/10 := ⟨h1, h2⟩
  have e1 : phase1TD ((frame : ℚ) / (frames : ℚ)) st = st := by
    unfold phase1TD
    rw [if_neg c1]
  have e2 : phase2TD ((frame : ℚ) / (frames : ℚ)) st = st := by
    unfold phase2TD
    rw [if_neg c2]
  have e3 : phase3TD ((frame : ℚ) / (frames : ℚ)) st = st := by
    unfold phase3TD
    rw [if_neg c3]
  simp only [updateTD]
  rw [e1, e2, e3, phase5TD_red]
  unfold phase4TD
  rw [if_pos c4]

/-- A minimal concrete animation state for instantiating the theorems. -/
noncomputable def tdStateEx : TDState :=
  { basisArr := [fun _ => 1], realArr := [fun _ => 1],
    realSumArr := fun _ => 1, concs := [1],
    black := [none], red := [none], sumBlack := none, sumRed := none }

theorem claim7_witness :
    0 ≤ sScale (((77 : ℕ) : ℚ) / ((100 : ℕ) : ℚ)) ∧
    sScale (((77 : ℕ) : ℚ) / ((100 : ℕ) : ℚ)) < 1 :=
  ⟨(claim7_scale_phase 100 77 tdStateEx (by norm_num) (by norm_num)).1,
   (claim7_scale_phase 100 77 tdStateEx (by norm_num) (by norm_num)).2.1⟩

/-- Counterexample to claim C9 as stated: in `RF_Pulse_to_FID.py` the frame
update does mutate a signal array — already the very first update call
appends a sample to the `fid` list, so the arrays are not left unchanged by
every per-frame update. -/
theorem claim9_counterexample :
    (rfStep freqOffsets 120 250 0 (rfInit (List.replicate 6 0))).fid ≠
      (rfInit (List.replicate 6 0)).fid := by
  unfold rfStep rfInit
  rw [if_pos (by norm_num : (0 : ℕ) < 120)]
  simp

/-- Claim C9, amended: in the basis-fitting scripts the per-frame update
leaves every setup-computed signal array (basis, real, composite,
concentrations) unchanged, writing only line-artist data; the RF-pulse
script is the exception — each of its update calls appends exactly one
sample to the `fid` array. -/
theorem claim9_amended_arrays_frozen :
    (∀ (frames frame : ℕ) (s : TDState),
        (updateTD frames frame s).basisArr = s.basisArr ∧
        (updateTD frames frame s).realArr = s.realArr ∧
        (updateTD frames frame s).realSumArr = s.realSumArr ∧
        (updateTD frames frame s).concs = s.concs) ∧
    (∀ (offsets : List ℝ) (rfFrame : ℕ) (T2s : ℝ) (frame : ℕ) (s : RFState),
        (rfStep offsets rfFrame T2s frame s).fid.length = s.fid.length + 1) := by
  constructor
  · intro frames frame s
    simp only [updateTD]
    refine ⟨?_, ?_, ?_, ?_⟩
    · rw [(phase5TD_arrays _ _).1, (phase4TD_arrays _ _).1,
        (phase3TD_arrays _ _).1, (phase2TD_arrays _ _).1,
        (phase1TD_arrays _ _).1]
    · rw [(phase5TD_arrays _ _).2.1, (phase4TD_arrays _ _).2.1,
        (phase3TD_arrays _ _).2.1, (phase2TD_arrays _ _).2.1,
        (phase1TD_arrays _ _).2.1]
    · rw [(phase5TD_arrays _ _).2.2.1, (phase4TD_arrays _ _).2.2.1,
        (phase3TD_arrays _ _).2.2.1, (phase2TD_arrays _ _).2.2.1,
        (phase1TD_arrays _ _).2.2.1]
    · rw [(phase5TD_arrays _ _).2.2.2, (phase4TD_arrays _ _).2.2.2,
        (phase3TD_arrays _ _).2.2.2, (phase2TD_arrays _ _).2.2.2,
        (phase1TD_arrays _ _).2.2.2]
  · intro offsets rfFrame T2s frame s
    unfold rfStep
    split_ifs <;> simp

/-- Counterexample to claim C3 as stated: the pattern-based `multiplet` of
the basis-fitting scripts does not equal the bare oscillatory sum
`Σ_i a_i·exp(i·2π·f_i·t)` — already for the singlet `multiplet(0,[1])` at
sample 1 (with the time-domain script's `T2 = 0.18`) the returned value
carries the decay factor `exp(-t/T2) ≠ 1`. -/
theorem claim3_counterexample :
    multiplet (18/100) 0 [1] 7 1 ≠ oscSumClosed 0 [1] 7 (tAxis 1) := by
  rw [multiplet, multipletOsc_eq_closed, oscSumClosed_singlet_zero, one_mul]
  have harg : -(tAxis 1) / (18/100) = -(1/360 : ℝ) := by
    unfold tAxis
    norm_num
  rw [decayEnv, harg]
  exact coe_exp_ne_one_of_neg (by norm_num)

/-- Claim C3, amended: the pattern-based `multiplet` places peak `i` at
`center + (i-(m-1)/2)·J` — offsets symmetric around the centre at spacing
`J` — and returns the oscillatory sum `Σ_i a_i·exp(i·2π·f_i·t)`
multiplied by the script's decay envelope `exp(-t/T2)`. -/
theorem claim3_amended_multiplet (T2 center : ℝ) (pattern : List ℝ)
    (J : ℝ) (n : ℕ) :
    multiplet T2 center pattern J n =
      oscSumClosed center pattern J (tAxis n) * ((decayEnv T2 n : ℝ) : ℂ) ∧
    (∀ i : ℕ, peakFreq center pattern.length J (i + 1) -
      peakFreq center pattern.length J i = J) ∧
    (∀ i : ℕ, i < pattern.length →
      (peakFreq center pattern.length J i - center) +
        (peakFreq center pattern.length J (pattern.length - 1 - i) - center)
          = 0) := by
  refine ⟨?_, ?_, ?_⟩
  · rw [multiplet, multipletOsc_eq_closed]
  · intro i
    unfold peakFreq
    push_cast
    ring
  · intro i hi
    unfold peakFreq
    rw [Nat.cast_sub (by omega : i ≤ pattern.length - 1),
      Nat.cast_sub (by omega : 1 ≤ pattern.length)]
    push_cast
    ring

theorem claim3_witness :
    (0 : ℕ) < ([1, 1] : List ℝ).length ∧
    (peakFreq 0 ([1, 1] : List ℝ).length 7 0 - 0) +
      (peakFreq 0 ([1, 1] : List ℝ).length 7
        (([1, 1] : List ℝ).length - 1 - 0) - 0) = 0 :=
  ⟨by norm_num,
   (claim3_amended_multiplet 1 0 [1, 1] 7 0).2.2 0 (by norm_num)⟩

/-- Counterexample to claim C4 as stated: the pattern-based `multiplet` of
the basis-fitting scripts does not return the undamped superposition —
with the spectral script's `T2 = 0.15`, `multiplet(0,[1])` at sample 1
differs from the undamped superposition by the factor `exp(-t/T2)`. -/
theorem claim4_counterexample :
    multiplet (15/100) 0 [1] 7 1 ≠ multipletOsc 0 [1] 7 (tAxis 1) := by
  rw [multiplet, multipletOsc_eq_closed, oscSumClosed_singlet_zero, one_mul]
  have harg : -(tAxis 1) / (15/100) = -(1/300 : ℝ) := by
    unfold tAxis
    norm_num
  rw [decayEnv, harg]
  exact coe_exp_ne_one_of_neg (by norm_num)

/-- Claim C4, amended: only the `multiplet(freqs, amps)` of the
FID-to-spectrum scripts is the bare undamped oscillatory superposition of
its terms (no normalization, no decay — decay is applied later, outside);
the pattern-based `multiplet` of the two basis-fitting scripts instead
multiplies the superposition by the T2 envelope before returning. -/
theorem claim4_amended_decay_location :
    (∀ (freqs amps : List ℝ) (time : ℝ),
        multipletFS freqs amps time =
          ∑ j ∈ Finset.range (min freqs.length amps.length),
            oscTerm (freqs.getD j 0) (amps.getD j 0) time) ∧
    (∀ (T2 center : ℝ) (pattern : List ℝ) (J : ℝ) (n : ℕ),
        multiplet T2 center pattern J n =
          oscSumClosed center pattern J (tAxis n) *
            ((decayEnv T2 n : ℝ) : ℂ)) := by
  constructor
  · intro freqs amps time
    rw [multipletFS, oscPairs_eq_sum, List.length_zip]
    refine Finset.sum_congr rfl ?_
    intro j hj
    have hj' : j < min freqs.length amps.length := Finset.mem_range.mp hj
    have hzip : j < (freqs.zip amps).length := by
      rw [List.length_zip]
      exact hj'
    rw [List.getD_eq_getElem _ _ hzip, List.getElem_zip,
      List.getD_eq_getElem _ _ (lt_of_lt_of_le hj' (min_le_left _ _)),
      List.getD_eq_getElem _ _ (lt_of_lt_of_le hj' (min_le_right _ _))]
  · intro T2 center pattern J n
    rw [multiplet, multipletOsc_eq_closed]

/-- Counterexample to claim C8 as stated: no setup-time rejection of a
non-positive T2 exists — with `T2 = -1 ≤ 0` the setup computation of the
decay envelope still succeeds, and the resulting envelope grows above 1
instead of signalling an invalid-configuration error. -/
theorem claim8_counterexample :
    ((-1 : ℝ) ≤ 0) ∧ setupDecay (-1) = Except.ok (decayEnv (-1)) ∧
    1 < decayEnv (-1) 1 := by
  refine ⟨by norm_num, rfl, ?_⟩
  have harg : -(tAxis 1) / (-1 : ℝ) = (1/2000 : ℝ) := by
    unfold tAxis
    norm_num
  rw [decayEnv, harg]
  calc (1 : ℝ) = Real.exp 0 := Real.exp_zero.symm
    _ < Real.exp (1/2000) := Real.exp_lt_exp.mpr (by norm_num)

/-- Claim C8, amended: the scripts perform no validation of T2 at all —
the setup computation `decay = np.exp(-t/T2)` succeeds unconditionally
for every T2 (in the scripts T2 is a hard-coded positive constant), and
for a non-positive (negative) T2 it silently yields a growing envelope
`exp(-t/T2) > 1` at every positive sample instead of an error. -/
theorem claim8_amended_no_validation :
    (∀ T2 : ℝ, setupDecay T2 = Except.ok (decayEnv T2)) ∧
    (∀ (T2 : ℝ) (n : ℕ), T2 < 0 → 0 < n → 1 < decayEnv T2 n) := by
  refine ⟨fun _ => rfl, ?_⟩
  intro T2 n hT2 hn
  have ht : (0 : ℝ) < tAxis n := by
    unfold tAxis
    positivity
  have harg : (0 : ℝ) < -(tAxis n) / T2 := div_pos_of_neg_of_neg (by linarith) hT2
  rw [decayEnv]
  calc (1 : ℝ) = Real.exp 0 := Real.exp_zero.symm
    _ < Real.exp (-(tAxis n) / T2) := Real.exp_lt_exp.mpr harg

theorem claim8_witness :
    ((-1 : ℝ) < 0 ∧ (0 : ℕ) < 2) ∧ 1 < decayEnv (-1) 2 :=
  ⟨⟨by norm_num, by norm_num⟩,
   claim8_amended_no_validation.2 (-1) 2 (by norm_num) (by norm_num)⟩
